import Mathlib

set_option maxRecDepth 100000
set_option maxHeartbeats 2000000

/-!
Verification development for the click parameter types of `samcli/cli/types.py`
(key-value decoders for tags, parameter overrides, metadata, signing profiles,
and sync watch excludes).  Python strings are embedded as `List Char`, Python
dicts as insertion-ordered association lists, Python exceptions as an explicit
result type, and the `re` patterns as a small backtracking matcher over a
regular-expression syntax tree mirroring the pattern strings of the source.
-/

namespace SamCliTypes

abbrev LC := List Char

def lc (s : String) : LC := s.toList

/-- Result of a Python call: either a value, a `self.fail` with a structured
message, or an uncaught exception propagating out. -/
inductive Conv (ε : Type) (α : Type) where
  | ok (val : α)
  | err (e : ε)
  deriving DecidableEq, Repr

/-- Characters treated as whitespace by Python `str.strip` / `str.split()`. -/
def pyIsSpace (c : Char) : Bool :=
  c == ' ' || c == '\t' || c == '\n' || c == '\r' || c == '\x0b' || c == '\x0c'

/-- Python `str.strip()` with no argument: drop whitespace from both ends. -/
def pyStrip (s : LC) : LC :=
  ((s.dropWhile pyIsSpace).reverse.dropWhile pyIsSpace).reverse

/-- Python `str.split(d)` for a one-character delimiter: keeps empty chunks,
and the split of the empty string is a list holding one empty chunk. -/
def pySplit : LC → Char → List LC
  | [], _ => [[]]
  | c :: t, d =>
    if c == d then [] :: pySplit t d
    else
      match pySplit t d with
      | [] => [[c]]
      | h :: r => (c :: h) :: r

/-- Helper for `pySplitWs`, accumulating the current chunk in reverse. -/
def pySplitWsAux : LC → LC → List LC
  | [], acc => if acc = [] then [] else [acc.reverse]
  | c :: t, acc =>
    if pyIsSpace c then
      (if acc = [] then pySplitWsAux t [] else acc.reverse :: pySplitWsAux t [])
    else pySplitWsAux t (c :: acc)

/-- Python `str.split()` with no argument: split on whitespace runs and drop
empty chunks. -/
def pySplitWs (s : LC) : List LC := pySplitWsAux s []

/-- Python `str.replace(pat, rep)` (all non-overlapping occurrences, left to
right), written with fuel that is decremented once per consumed character. -/
def pyReplaceAux : Nat → LC → LC → LC → LC
  | 0, s, _, _ => s
  | f + 1, s, pat, rep =>
    if pat ≠ [] ∧ pat.isPrefixOf s = true then
      rep ++ pyReplaceAux f (s.drop pat.length) pat rep
    else
      match s with
      | [] => []
      | c :: t => c :: pyReplaceAux f t pat rep

def pyReplace (s pat rep : LC) : LC := pyReplaceAux s.length s pat rep

/-- Python `s.count(c)` for a single character. -/
def pyCount (s : LC) (c : Char) : Nat := s.count c

/-- Lookup in an insertion-ordered dict (Python `d.get(k)`). -/
def pyDictGet {α : Type} (d : List (LC × α)) (k : LC) : Option α :=
  (d.find? fun p => p.1 == k).map (·.2)

/-- Assignment `d[k] = v` on an insertion-ordered dict: an existing key keeps
its position, a new key is appended at the end. -/
def pyDictSet {α : Type} (d : List (LC × α)) (k : LC) (v : α) : List (LC × α) :=
  if d.any fun p => p.1 == k then
    d.map fun p => if p.1 == k then (p.1, v) else p
  else d ++ [(k, v)]

/-- The escape-resolving tail of `_unquote_wrapped_quotes`: the three chained
`str.replace` calls resolving backslash-space, backslash-double-quote and
backslash-single-quote, in that order. -/
def pyUnescape (value : LC) : LC :=
  pyReplace (pyReplace (pyReplace value [ '\\', ' ' ] [ ' ' ])
      [ '\\', '"' ] [ '"' ])
    [ '\\', '\'' ] [ '\'' ]

/-- `_unquote_wrapped_quotes` from `samcli/cli/types.py`: strip a wrapping
quote pair when the string is non-empty with equal first and last characters
that are both quote characters, then unescape. -/
def _unquote_wrapped_quotes (value : LC) : LC :=
  let value :=
    if value ≠ [] ∧ value.head? = value.getLast? ∧
        (value.head? = some '"' ∨ value.head? = some '\'') ∧
        (value.getLast? = some '"' ∨ value.getLast? = some '\'') then
      (value.drop 1).dropLast
    else value
  pyUnescape value

/-- The `TextWithSpaces` bookkeeping object of `samcli/cli/types.py`. -/
structure TextWithSpaces where
  text : LC
  modified_text : LC
  space_positions : List Nat
  deriving DecidableEq, Repr

/-- Construction `TextWithSpaces(text)`. -/
def TextWithSpaces.init (t : LC) : TextWithSpaces := ⟨t, t, []⟩

/-- `TextWithSpaces.replace_spaces`: record the offset of every space of
`text`, store `text` with the spaces substituted by `replacement`, and return
the updated object (the source returns `modified_text` and updates the object
in place). -/
def TextWithSpaces.replace_spaces (tw : TextWithSpaces) (replacement : LC) :
    TextWithSpaces :=
  { text := tw.text
    modified_text := pyReplace tw.text [ ' ' ] replacement
    space_positions := (tw.text.enum.filter fun p => p.2 == ' ').map (·.1) }

/-- `TextWithSpaces.restore_spaces`: write a space back at every recorded
offset of `modified_text`. -/
def TextWithSpaces.restore_spaces (tw : TextWithSpaces) : LC :=
  tw.space_positions.foldl (fun l p => l.set p ' ') tw.modified_text

/-! ## A small regular-expression engine

The `re` patterns of the source are embedded as syntax trees and matched by a
backtracking matcher whose preference order mirrors the Python engine:
alternation prefers the earlier branch, repetition is greedy, and `findall`
scans for leftmost non-overlapping matches. -/

/-- Regular-expression syntax. `cls` is a single-character class, `star` is
greedy repetition, `group` is a capturing group. -/
inductive RE where
  | cls (p : Char → Bool)
  | seq (a b : RE)
  | alt (a b : RE)
  | star (a : RE)
  | group (a : RE)

/-- One-or-more repetition, as `a` followed by `a*` (how the engine treats
`+`). -/
def RE.plus (a : RE) : RE := .seq a (.star a)

/-- A literal string, as a sequence of singleton classes. -/
def litRE : LC → RE
  | [] => .star (.cls fun _ => false)
  | [c] => .cls fun x => x == c
  | c :: rest => .seq (.cls fun x => x == c) (litRE rest)

/-- Backtracking matcher: all ways to match `re` against a prefix of `s`, in
the Python engine's preference order, each as (remaining suffix, group
captures in opening order).  The fuel is decremented on every recursion and
chosen large enough at the call sites below. -/
def mat : Nat → RE → LC → List (LC × List LC)
  | 0, _, _ => []
  | Nat.succ f, re, s =>
    match re with
    | .cls p =>
      match s with
      | [] => []
      | c :: rest => if p c then [(rest, [])] else []
    | .seq a b =>
      (mat f a s).flatMap fun rc =>
        (mat f b rc.1).map fun rc2 => (rc2.1, rc.2 ++ rc2.2)
    | .alt a b => mat f a s ++ mat f b s
    | .star a =>
      ((mat f a s).flatMap fun rc =>
        if rc.1.length < s.length then
          (mat f (.star a) rc.1).map fun rc2 => (rc2.1, rc.2 ++ rc2.2)
        else []) ++ [(s, [])]
    | .group a =>
      (mat f a s).map fun rc => (rc.1, s.take (s.length - rc.1.length) :: rc.2)

/-- Fuel large enough for every match attempt on `s` (recursion depth is
bounded by pattern structure times consumed characters). -/
def matFuel (s : LC) : Nat := 400 * (s.length + 2)

/-- Leftmost-match scan of `re.findall`: at each position take the first
match of the backtracking matcher, record its captures, and continue after
it (advancing one character on an empty match or a failure). -/
def findallAux : Nat → RE → LC → List (List LC)
  | 0, _, _ => []
  | Nat.succ f, re, s =>
    match mat (matFuel s) re s with
    | rc :: _ =>
      if rc.1.length < s.length then rc.2 :: findallAux f re rc.1
      else rc.2 :: findallAux f re (s.drop 1)
    | [] =>
      match s with
      | [] => []
      | _ :: t => findallAux f re t

def findall (re : RE) (s : LC) : List (List LC) :=
  findallAux (s.length + 1) re s

/-- Interpret the captures of a two-group pattern as key-value pairs (Python
`findall` returns a 2-tuple per match for such patterns). -/
def pairsOfCaps (caps : List (List LC)) : List (LC × LC) :=
  caps.filterMap fun c =>
    match c with
    | [k, v] => some (k, v)
    | _ => none

/-! ## The character classes and patterns of `samcli/cli/types.py` -/

/-- The default-mode `.` of the patterns: any character but a newline. -/
def anyChar (c : Char) : Bool := c != '\n'

/-- `PARAM_AND_METADATA_KEY_REGEX`, the class `[A-Za-z0-9"']`. -/
def paramKeyChar (c : Char) : Bool := c.isAlphanum || c == '"' || c == '\''

/-- The key class `[A-Za-z0-9"]` of the signing-profile pattern. -/
def signKeyChar (c : Char) : Bool := c.isAlphanum || c == '"'

/-- `CfnTags.TAG_REGEX`: alphanumerics, double quote, underscore, colon, dot,
slash, the class range from plus to at-sign, and the equals sign. -/
def tagChar (c : Char) : Bool :=
  c.isAlphanum || c == '"' || c == '_' || c == ':' || c == '.' || c == '/' ||
    decide ('+' ≤ c ∧ c ≤ '@') || c == '='

/-- `_generate_match_regex(match_pattern, delim)`: one capturing group holding
a double-quoted span (escape-aware), a single-quoted span, and — when a
delimiter class is supplied — a run of escapes or characters that are neither
the delimiter, a double quote, nor a backslash. -/
def _generate_match_regex (matchP : Char → Bool) (delim : Option (Char → Bool)) :
    RE :=
  let esc : RE := .seq (.cls fun c => c == '\\') (.cls matchP)
  let dquoted : RE :=
    .seq (.cls fun c => c == '"')
      (.seq (.star (.alt esc (RE.plus (.cls fun c => c != '"' && c != '\\'))))
        (.cls fun c => c == '"'))
  let squoted : RE :=
    .seq (.cls fun c => c == '\'')
      (.seq (.star (.alt esc (RE.plus (.cls fun c => c != '\'' && c != '\\'))))
        (.cls fun c => c == '\''))
  match delim with
  | some d =>
    .group (.alt dquoted (.alt squoted
      (RE.plus (.alt esc (RE.plus (.cls fun c => !(d c) && c != '"' && c != '\\'))))))
  | none => .group (.alt dquoted squoted)

/-- `CfnParameterOverridesType.VALUE_REGEX_SPACE_DELIM`. -/
def VALUE_REGEX_SPACE_DELIM : RE :=
  _generate_match_regex anyChar (some fun c => c == ' ')

/-- `CfnParameterOverridesType._pattern_1`:
`ParameterKey={key},ParameterValue={value}`. -/
def paramPattern1 : RE :=
  .seq (litRE (lc "ParameterKey="))
    (.seq (.group (RE.plus (.cls paramKeyChar)))
      (.seq (litRE (lc ",ParameterValue=")) VALUE_REGEX_SPACE_DELIM))

/-- `CfnParameterOverridesType._pattern_2`: `(?: ){key}={value}`. -/
def paramPattern2 : RE :=
  .seq (.cls fun c => c == ' ')
    (.seq (.group (RE.plus (.cls paramKeyChar)))
      (.seq (.cls fun c => c == '=') VALUE_REGEX_SPACE_DELIM))

/-- `CfnMetadataType.VALUE_REGEX_COMMA_DELIM`. -/
def VALUE_REGEX_COMMA_DELIM : RE :=
  _generate_match_regex anyChar (some fun c => c == ',')

/-- `CfnMetadataType._pattern`: `{key}={value}` with comma delimiter. -/
def metadataPattern : RE :=
  .seq (.group (RE.plus (.cls paramKeyChar)))
    (.seq (.cls fun c => c == '=') VALUE_REGEX_COMMA_DELIM)

/-- The tag token grammar of `CfnTags._pattern` (space delimiter). -/
def tagValueRE : RE := _generate_match_regex tagChar (some fun c => c == ' ')

/-- `CfnTags._pattern`: `{tag}={tag}`. -/
def tagPattern : RE := .seq tagValueRE (.seq (.cls fun c => c == '=') tagValueRE)

/-- `CfnTags._quoted_pattern`: the tag token grammar with no delimiter, so it
matches only quoted spans. -/
def tagQuotedPattern : RE := _generate_match_regex tagChar none

/-- `SigningProfilesOptionType.pattern`:
`(?:(?: )([A-Za-z0-9"]+)=("(?:\\.|[^"\\]+)*"|(?:\\.|[^ "\\]+)+))`. -/
def signingPattern : RE :=
  let esc : RE := .seq (.cls fun c => c == '\\') (.cls anyChar)
  let dquoted : RE :=
    .seq (.cls fun c => c == '"')
      (.seq (.star (.alt esc (RE.plus (.cls fun c => c != '"' && c != '\\'))))
        (.cls fun c => c == '"'))
  let bare : RE :=
    RE.plus (.alt esc (RE.plus (.cls fun c => c != ' ' && c != '"' && c != '\\')))
  .seq (.cls fun c => c == ' ')
    (.seq (.group (RE.plus (.cls signKeyChar)))
      (.seq (.cls fun c => c == '=') (.group (.alt dquoted bare))))

/-! ## A model of Python `json.loads`

`CfnMetadataType.convert` first hands the whole value to `json.loads`; the
decoder below follows the strict JSON grammar that call accepts (objects,
arrays, strings with the standard escapes, numbers, `true`/`false`/`null`,
plus the CPython extensions `NaN`, `Infinity` and `-Infinity`), failing —
like `json.loads` raising `JSONDecodeError` — on anything else, including
trailing data.  Duplicate object keys follow dict semantics (last one wins).
Surrogate-pair combination in `\u` escapes is not modelled (no claim touches
it); each escape becomes one character. -/

/-- A decoded JSON value.  Numbers keep their lexeme: no claim depends on
numeric value, only on the shape of the result. -/
inductive JsonVal where
  | null
  | bool (b : Bool)
  | num (lex : LC)
  | str (s : LC)
  | arr (xs : List JsonVal)
  | obj (kvs : List (LC × JsonVal))
  deriving BEq

/-- Whether a JSON value is a nested container (Python
`isinstance(val, (dict, list))`). -/
def JsonVal.isContainer : JsonVal → Bool
  | .arr _ => true
  | .obj _ => true
  | _ => false

/-- Whitespace accepted between JSON tokens. -/
def jsonSkipWs (s : LC) : LC :=
  s.dropWhile fun c => c == ' ' || c == '\t' || c == '\n' || c == '\r'

def jsonHexDigit (c : Char) : Option Nat :=
  if c.isDigit then some (c.toNat - 48)
  else if 'a' ≤ c ∧ c ≤ 'f' then some (c.toNat - 87)
  else if 'A' ≤ c ∧ c ≤ 'F' then some (c.toNat - 55)
  else none

/-- Body of a JSON string after the opening quote: returns content and the
suffix after the closing quote.  Strict mode: unescaped control characters
are rejected. -/
def jsonParseStringAux : Nat → LC → LC → Option (LC × LC)
  | 0, _, _ => none
  | Nat.succ f, acc, s =>
    match s with
    | [] => none
    | '"' :: rest => some (acc.reverse, rest)
    | '\\' :: rest =>
      match rest with
      | '"' :: r => jsonParseStringAux f ('"' :: acc) r
      | '\\' :: r => jsonParseStringAux f ('\\' :: acc) r
      | '/' :: r => jsonParseStringAux f ('/' :: acc) r
      | 'b' :: r => jsonParseStringAux f ('\x08' :: acc) r
      | 'f' :: r => jsonParseStringAux f ('\x0c' :: acc) r
      | 'n' :: r => jsonParseStringAux f ('\n' :: acc) r
      | 'r' :: r => jsonParseStringAux f ('\r' :: acc) r
      | 't' :: r => jsonParseStringAux f ('\t' :: acc) r
      | 'u' :: h1 :: h2 :: h3 :: h4 :: r =>
        match jsonHexDigit h1, jsonHexDigit h2, jsonHexDigit h3, jsonHexDigit h4 with
        | some a, some b, some c, some d =>
          jsonParseStringAux f (Char.ofNat (((a * 16 + b) * 16 + c) * 16 + d) :: acc) r
        | _, _, _, _ => none
      | _ => none
    | c :: rest =>
      if c.toNat < 32 then none else jsonParseStringAux f (c :: acc) rest

def jsonParseString (s : LC) : Option (LC × LC) :=
  jsonParseStringAux (s.length + 1) [] s

/-- A JSON number: optional minus, integer part without a leading zero,
optional fraction, optional exponent.  Returns the lexeme and the suffix. -/
def jsonParseNumber (s : LC) : Option (LC × LC) :=
  let signed : LC × LC :=
    match s with
    | '-' :: t => ([ '-' ], t)
    | _ => ([], s)
  let intPart : Option (LC × LC) :=
    match signed.2 with
    | '0' :: t => some (signed.1 ++ [ '0' ], t)
    | c :: t =>
      if c.isDigit then
        some (signed.1 ++ c :: t.takeWhile Char.isDigit, t.dropWhile Char.isDigit)
      else none
    | [] => none
  match intPart with
  | none => none
  | some (ip, rest) =>
    let withFrac : Option (LC × LC) :=
      match rest with
      | '.' :: t =>
        let ds := t.takeWhile Char.isDigit
        if ds = [] then none else some (ip ++ '.' :: ds, t.dropWhile Char.isDigit)
      | _ => some (ip, rest)
    match withFrac with
    | none => none
    | some (fp, rest2) =>
      match rest2 with
      | e :: t =>
        if e == 'e' || e == 'E' then
          let signedExp : LC × LC :=
            match t with
            | '+' :: u => ([ '+' ], u)
            | '-' :: u => ([ '-' ], u)
            | _ => ([], t)
          let ds := signedExp.2.takeWhile Char.isDigit
          if ds = [] then none
          else some (fp ++ e :: signedExp.1 ++ ds, signedExp.2.dropWhile Char.isDigit)
        else some (fp, rest2)
      | [] => some (fp, rest2)

/-- Members of a non-empty JSON object, accumulating pairs in input order
(`pv` parses one value); the final object applies dict insertion semantics
(duplicate keys: last one wins). -/
def jsonObjItemsGo (pv : LC → Option (JsonVal × LC)) :
    Nat → LC → List (LC × JsonVal) → Option (JsonVal × LC)
  | 0, _, _ => none
  | Nat.succ f, s, acc =>
    match jsonSkipWs s with
    | '"' :: rest =>
      match jsonParseString rest with
      | none => none
      | some (key, r1) =>
        match jsonSkipWs r1 with
        | ':' :: r2 =>
          match pv r2 with
          | none => none
          | some (v, r3) =>
            match jsonSkipWs r3 with
            | ',' :: r4 => jsonObjItemsGo pv f r4 (acc ++ [(key, v)])
            | '\x7d' :: r4 =>
              some (.obj ((acc ++ [(key, v)]).foldl
                (fun d p => pyDictSet d p.1 p.2) []), r4)
            | _ => none
        | _ => none
    | _ => none

/-- Elements of a non-empty JSON array (`pv` parses one value). -/
def jsonArrItemsGo (pv : LC → Option (JsonVal × LC)) :
    Nat → LC → List JsonVal → Option (JsonVal × LC)
  | 0, _, _ => none
  | Nat.succ f, s, acc =>
    match pv s with
    | none => none
    | some (v, r1) =>
      match jsonSkipWs r1 with
      | ',' :: r2 => jsonArrItemsGo pv f r2 (acc ++ [v])
      | ']' :: r2 => some (.arr (acc ++ [v]), r2)
      | _ => none

/-- One JSON value, starting at `s` (leading whitespace allowed). -/
def jsonParseValue : Nat → LC → Option (JsonVal × LC)
  | 0, _ => none
  | Nat.succ f, s =>
    match jsonSkipWs s with
    | [] => none
    | c :: rest =>
      if c == '\x7b' then
        match jsonSkipWs rest with
        | '\x7d' :: r2 => some (.obj [], r2)
        | r => jsonObjItemsGo (jsonParseValue f) f r []
      else if c == '[' then
        match jsonSkipWs rest with
        | ']' :: r2 => some (.arr [], r2)
        | r => jsonArrItemsGo (jsonParseValue f) f r []
      else if c == '"' then
        (jsonParseString rest).map fun p => (.str p.1, p.2)
      else if (lc "true").isPrefixOf (c :: rest) then
        some (.bool true, (c :: rest).drop 4)
      else if (lc "false").isPrefixOf (c :: rest) then
        some (.bool false, (c :: rest).drop 5)
      else if (lc "null").isPrefixOf (c :: rest) then
        some (.null, (c :: rest).drop 4)
      else if (lc "NaN").isPrefixOf (c :: rest) then
        some (.num (lc "NaN"), (c :: rest).drop 3)
      else if (lc "Infinity").isPrefixOf (c :: rest) then
        some (.num (lc "Infinity"), (c :: rest).drop 8)
      else if (lc "-Infinity").isPrefixOf (c :: rest) then
        some (.num (lc "-Infinity"), (c :: rest).drop 9)
      else
        (jsonParseNumber (c :: rest)).map fun p => (.num p.1, p.2)

/-- `json.loads`: one JSON value covering the whole input (trailing
whitespace allowed, trailing data rejected).  `none` models a raised
`JSONDecodeError`. -/
def jsonLoads (s : LC) : Option JsonVal :=
  match jsonParseValue (s.length + 2) s with
  | some (v, rest) => if jsonSkipWs rest = [] then some v else none
  | none => none

/-! ## `CfnParameterOverridesType` -/

inductive ParamErr where
  | notValidFormat
  deriving DecidableEq, Repr

/-- The inputs `convert` can receive: a single string or a tuple of strings
(a list from samconfig behaves like the tuple here). -/
inductive StrTupleInput where
  | str (s : LC)
  | tuple (xs : List LC)
  deriving DecidableEq

/-- The extraction loop over the matched groups:
`result[unquote(key)] = unquote(value)` for each pair, in match order. -/
def CfnParameterOverridesType.addGroups (result : List (LC × LC))
    (groups : List (LC × LC)) : List (LC × LC) :=
  groups.foldl
    (fun acc p => pyDictSet acc (_unquote_wrapped_quotes p.1) (_unquote_wrapped_quotes p.2))
    result

/-- The per-token body of `CfnParameterOverridesType.convert`: prefix a space
to the stripped token, pick the first pattern whose `findall` is non-empty
(`_pattern_1` before `_pattern_2`), extract all its pairs, or fail citing the
two canonical examples. -/
def CfnParameterOverridesType.convertVal (result : List (LC × LC)) (val : LC) :
    Conv ParamErr (List (LC × LC)) :=
  let normalized_val := ' ' :: pyStrip val
  let g1 := findall paramPattern1 normalized_val
  if g1 ≠ [] then .ok (CfnParameterOverridesType.addGroups result (pairsOfCaps g1))
  else
    let g2 := findall paramPattern2 normalized_val
    if g2 ≠ [] then .ok (CfnParameterOverridesType.addGroups result (pairsOfCaps g2))
    else .err .notValidFormat

def CfnParameterOverridesType.convertGo :
    List LC → List (LC × LC) → Conv ParamErr (List (LC × LC))
  | [], result => .ok result
  | v :: rest, result =>
    match CfnParameterOverridesType.convertVal result v with
    | .ok r2 => CfnParameterOverridesType.convertGo rest r2
    | .err e => .err e

/-- `CfnParameterOverridesType.convert`. -/
def CfnParameterOverridesType.convert (value : StrTupleInput) :
    Conv ParamErr (List (LC × LC)) :=
  match value with
  | .tuple xs => if xs = [[]] then .ok [] else CfnParameterOverridesType.convertGo xs []
  | .str s => CfnParameterOverridesType.convertGo [s] []

/-! ## `CfnMetadataType` -/

inductive MetaErr where
  | notValidFormat
  | attributeError
  deriving DecidableEq, Repr

/-- `CfnMetadataType.convert`.  An empty value returns the empty dict at
once.  Otherwise `json.loads` is attempted: a decoded dict is rejected when
any of its values is a container, and a decoded non-dict hits
`result.values()` on an object with no such attribute — an uncaught
`AttributeError`.  On a `JSONDecodeError` the comma-delimited pattern is the
fallback, failing when it yields no groups. -/
def CfnMetadataType.convert (value : LC) : Conv MetaErr (List (LC × JsonVal)) :=
  if value = [] then .ok []
  else
    match jsonLoads value with
    | some (.obj kvs) =>
      if kvs.any (fun p => p.2.isContainer) then .err .notValidFormat else .ok kvs
    | some _ => .err .attributeError
    | none =>
      let groups := pairsOfCaps (findall metadataPattern value)
      if groups = [] then .err .notValidFormat
      else .ok (groups.foldl (fun acc p => pyDictSet acc p.1 (JsonVal.str p.2)) [])

/-- The metadata decoder as the specification words it (section 4.5): a
strict JSON-object decode is attempted first, and anything that is not a
JSON object falls back to the comma-delimited grammar; every failure is the
structured format error.  Stated for comparison with
`CfnMetadataType.convert`. -/
def CfnMetadataType.specDecode (value : LC) : Conv MetaErr (List (LC × JsonVal)) :=
  match jsonLoads value with
  | some (.obj kvs) =>
    if kvs.any (fun p => p.2.isContainer) then .err .notValidFormat else .ok kvs
  | _ =>
    let groups := pairsOfCaps (findall metadataPattern value)
    if groups = [] then .err .notValidFormat
    else .ok (groups.foldl (fun acc p => pyDictSet acc p.1 (JsonVal.str p.2)) [])

/-! ## `CfnTags` -/

/-- A stored tag value: a plain string in single-value mode, a list of
strings in multi-value mode. -/
inductive TagVal where
  | single (s : LC)
  | multi (xs : List LC)
  deriving DecidableEq, Repr

abbrev TagDict := List (LC × TagVal)

inductive TagErr where
  | notValidFormat
  | attributeError
  deriving DecidableEq, Repr

/-- An element iterated over by `CfnTags.convert`: the strings of the input
tuple, or a whole dict (which the parsers cannot handle: calling
`.count("=")` on it raises). -/
inductive TagAtom where
  | str (s : LC)
  | dict (d : TagDict)
  deriving DecidableEq

/-- The inputs `CfnTags.convert` can receive. -/
inductive TagInput where
  | str (s : LC)
  | list (xs : List TagAtom)
  | tuple (xs : List TagAtom)
  | dict (d : TagDict)
  deriving DecidableEq

/-- `CfnTags._standard_key_value_parser`: succeed exactly when the string
holds exactly one equals sign, splitting there. -/
def CfnTags.standardKeyValue (tag_value : LC) : Option (LC × LC) :=
  if pyCount tag_value '=' ≠ 1 then none
  else
    let splits := pySplit tag_value '='
    some (splits.headD [], (splits.drop 1).headD [])

/-- The chunk loop shared by `CfnTags._space_separated_key_value_parser` and
`CfnTags._multiple_space_separated_key_value_parser`: every chunk must
satisfy the single-pair form, and the pairs merge into one dict. -/
def CfnTags.tagChunksGo : List LC → List (LC × LC) → Option (List (LC × LC))
  | [], acc => some acc
  | v :: rest, acc =>
    match CfnTags.standardKeyValue v with
    | none => none
    | some kv => CfnTags.tagChunksGo rest (pyDictSet acc kv.1 kv.2)

/-- `CfnTags._space_separated_key_value_parser`: split on single spaces
(keeping empty chunks) and require every chunk to be a single pair. -/
def CfnTags.spaceSeparatedKeyValue (tag_value : LC) : Option (List (LC × LC)) :=
  CfnTags.tagChunksGo (pySplit tag_value ' ') []

/-- `CfnTags._multiple_space_separated_key_value_parser`: split on
whitespace runs (dropping empty chunks) and require every chunk to be a
single pair. -/
def CfnTags.multipleSpaceSeparatedKeyValue (tag_value : LC) :
    Option (List (LC × LC)) :=
  CfnTags.tagChunksGo (pySplitWs tag_value) []

/-- `CfnTags._add_value`.  In multi-value mode a key bound to a falsy value
(absent, or an empty list) is reset to an empty list before the append; a
key bound to a non-empty plain string would hit `str.append`, an uncaught
`AttributeError` (unreachable when one mode is used throughout a call). -/
def CfnTags._add_value (multiple_values_per_key : Bool) (result : TagDict)
    (key new_value : LC) : Conv TagErr TagDict :=
  if multiple_values_per_key then
    match pyDictGet result key with
    | some (.multi xs) =>
      if xs = [] then .ok (pyDictSet result key (.multi [new_value]))
      else .ok (pyDictSet result key (.multi (xs ++ [new_value])))
    | some (.single s) =>
      if s = [] then .ok (pyDictSet result key (.multi [new_value]))
      else .err .attributeError
    | none => .ok (pyDictSet result key (.multi [new_value]))
  else .ok (pyDictSet result key (.single new_value))

/-- The loop `for k in tags: self._add_value(result, unquote(k),
unquote(tags[k]))` over parsed pairs in insertion order. -/
def CfnTags.addTags (multi : Bool) : TagDict → List (LC × LC) → Conv TagErr TagDict
  | result, [] => .ok result
  | result, (k, v) :: rest =>
    match CfnTags._add_value multi result (_unquote_wrapped_quotes k)
        (_unquote_wrapped_quotes v) with
    | .ok r2 => CfnTags.addTags multi r2 rest
    | .err e => .err e

/-- The masking step of `CfnTags._parse_key_value_pair`: find every quoted
span, build a `TextWithSpaces` for each with its spaces replaced by the
placeholder, and substitute each masked span into the working copy.  Returns
the masked string and the bookkeeping objects. -/
def CfnTags.maskQuoted (modified_val : LC) : LC × List TextWithSpaces :=
  let quoted := (findall tagQuotedPattern modified_val).filterMap List.head?
  let objs := quoted.map fun q =>
    TextWithSpaces.replace_spaces (TextWithSpaces.init q) [ '_' ]
  ((quoted.zip objs).foldl (fun m p => pyReplace m p.1 p.2.modified_text)
      modified_val,
    objs)

/-- The restore-and-add loop of `CfnTags._parse_key_value_pair`: each value
equal to a masked span gets its spaces restored by recorded position before
both key and value are unquoted and added. -/
def CfnTags.restoreGo (multi : Bool) (objs : List TextWithSpaces) :
    TagDict → List (LC × LC) → Conv TagErr TagDict
  | result, [] => .ok result
  | result, (key, value) :: rest =>
    let text_objects := objs.filter fun o => o.modified_text == value
    let new_value :=
      match text_objects.head? with
      | some o => o.restore_spaces
      | none => value
    match CfnTags._add_value multi result (_unquote_wrapped_quotes key)
        (_unquote_wrapped_quotes new_value) with
    | .ok r2 => CfnTags.restoreGo multi objs r2 rest
    | .err e => .err e

/-- `CfnTags._parse_key_value_pair`: unquote the whole argument, mask spaces
inside quoted spans, run the whitespace-run splitter on the masked copy and
restore the masked values on success; otherwise fall back to the full
`{tag}={tag}` pattern on the raw argument, reporting failure when it yields
no groups. -/
def CfnTags._parse_key_value_pair (multi : Bool) (result : TagDict)
    (key_value_string : LC) : Conv TagErr (Bool × TagDict) :=
  let modified_val := _unquote_wrapped_quotes key_value_string
  let mq := CfnTags.maskQuoted modified_val
  match CfnTags.multipleSpaceSeparatedKeyValue mq.1 with
  | some tags =>
    match CfnTags.restoreGo multi mq.2 result tags with
    | .ok r2 => .ok (true, r2)
    | .err e => .err e
  | none =>
    let groups := pairsOfCaps (findall tagPattern key_value_string)
    match groups with
    | [] => .ok (false, result)
    | _ =>
      match CfnTags.addTags multi result groups with
      | .ok r2 => .ok (true, r2)
      | .err e => .err e

/-- The per-argument body of `CfnTags.convert`: standard parser, then the
space-separated parser, then `_parse_key_value_pair`, failing when the last
reports an unparsed argument.  A dict argument raises before any stage
(`dict.count` does not exist). -/
def CfnTags.convertVal (multi : Bool) (result : TagDict) (val : TagAtom) :
    Conv TagErr TagDict :=
  match val with
  | .dict _ => .err .attributeError
  | .str s =>
    match CfnTags.standardKeyValue s with
    | some kv => CfnTags.addTags multi result [kv]
    | none =>
      match CfnTags.spaceSeparatedKeyValue s with
      | some tags => CfnTags.addTags multi result tags
      | none =>
        match CfnTags._parse_key_value_pair multi result s with
        | .ok pr => if pr.1 then .ok pr.2 else .err .notValidFormat
        | .err e => .err e

def CfnTags.convertGo (multi : Bool) : List TagAtom → TagDict → Conv TagErr TagDict
  | [], result => .ok result
  | v :: rest, result =>
    match CfnTags.convertVal multi result v with
    | .ok r2 => CfnTags.convertGo multi rest r2
    | .err e => .err e

/-- `CfnTags.convert`: the empty one-string tuple returns the empty dict, an
empty list returns the empty dict, any other non-tuple is wrapped into a
one-element tuple, and the arguments are processed in order. -/
def CfnTags.convert (multi : Bool) (value : TagInput) : Conv TagErr TagDict :=
  match value with
  | .tuple xs => if xs = [.str []] then .ok [] else CfnTags.convertGo multi xs []
  | .list xs => if xs = [] then .ok [] else CfnTags.convertGo multi xs []
  | .str s => CfnTags.convertGo multi [.str s] []
  | .dict d => CfnTags.convertGo multi [.dict d] []

/-! ## `SigningProfilesOptionType` -/

structure SignProfile where
  profile_name : LC
  profile_owner : LC
  deriving DecidableEq, Repr

inductive SignErr where
  | notValidCodeSignConfig
  | signerProfileInvalidFormat
  deriving DecidableEq, Repr

/-- The inputs `SigningProfilesOptionType.convert` can receive; iterating a
dict iterates its keys. -/
inductive SignInput where
  | str (s : LC)
  | tuple (xs : List LC)
  | dict (d : List (LC × SignProfile))
  deriving DecidableEq

/-- `SigningProfilesOptionType._split_signer_profile_name_owner`: more than
one colon gives Python's `(None, None)` (modelled as `none`), exactly one
colon splits into the two halves, no colon pairs the whole spec with an
empty owner. -/
def SigningProfilesOptionType._split_signer_profile_name_owner
    (signing_profile : LC) : Option (LC × LC) :=
  let equals_count := pyCount signing_profile ':'
  if equals_count > 1 then none
  else if equals_count = 1 then
    match pySplit signing_profile ':' with
    | a :: b :: _ => some (a, b)
    | _ => none
  else some (signing_profile, [])

/-- The loop over matched `(function_name, profile_spec)` pairs: both a
`(None, None)` split result and an empty profile name are falsy, so both
reach the same `self.fail` with the same invalid-format message. -/
def SigningProfilesOptionType.addProfiles :
    List (LC × SignProfile) → List (LC × LC) → Conv SignErr (List (LC × SignProfile))
  | result, [] => .ok result
  | result, (function_name, param_value) :: rest =>
    match SigningProfilesOptionType._split_signer_profile_name_owner
        (_unquote_wrapped_quotes param_value) with
    | none => .err .signerProfileInvalidFormat
    | some (n, o) =>
      if n = [] then .err .signerProfileInvalidFormat
      else
        SigningProfilesOptionType.addProfiles
          (pyDictSet result (_unquote_wrapped_quotes function_name) ⟨n, o⟩) rest

/-- The per-value body of `SigningProfilesOptionType.convert`. -/
def SigningProfilesOptionType.convertVal (result : List (LC × SignProfile))
    (val : LC) : Conv SignErr (List (LC × SignProfile)) :=
  let normalized_val := ' ' :: pyStrip val
  let signing_profiles := pairsOfCaps (findall signingPattern normalized_val)
  if signing_profiles = [] then .err .notValidCodeSignConfig
  else SigningProfilesOptionType.addProfiles result signing_profiles

def SigningProfilesOptionType.convertGo :
    List LC → List (LC × SignProfile) → Conv SignErr (List (LC × SignProfile))
  | [], result => .ok result
  | v :: rest, result =>
    match SigningProfilesOptionType.convertVal result v with
    | .ok r2 => SigningProfilesOptionType.convertGo rest r2
    | .err e => .err e

/-- `SigningProfilesOptionType.convert`.  There is no dict check: a dict
input is iterated like any other non-string value, which walks its keys. -/
def SigningProfilesOptionType.convert (value : SignInput) :
    Conv SignErr (List (LC × SignProfile)) :=
  match value with
  | .tuple xs => if xs = [[]] then .ok [] else SigningProfilesOptionType.convertGo xs []
  | .str s => SigningProfilesOptionType.convertGo [s] []
  | .dict d => SigningProfilesOptionType.convertGo (d.map (·.1)) []

/-! ## `SyncWatchExcludeType` -/

inductive SyncErr where
  | badParameter
  deriving DecidableEq, Repr

inductive SyncInput where
  | str (s : LC)
  | dict (d : List (LC × List LC))
  deriving DecidableEq

/-- `SyncWatchExcludeType.convert`: a dict input passes through unchanged;
a string must split on `=` into exactly two non-empty parts. -/
def SyncWatchExcludeType.convert (value : SyncInput) :
    Conv SyncErr (List (LC × List LC)) :=
  match value with
  | .dict d => .ok d
  | .str s =>
    let mapping_pair := pySplit s '='
    if mapping_pair.length ≠ 2 then .err .badParameter
    else
      let resource_id := mapping_pair.headD []
      let excluded_path := (mapping_pair.drop 1).headD []
      if resource_id = [] ∨ excluded_path = [] then .err .badParameter
      else .ok [(resource_id, [excluded_path])]

/-! ## Definitions used by the claim statements -/

/-- Run `_add_value` over a sequence of already-parsed key-value pairs (one
tag-decoder call's successfully parsed pairs, in processing order). -/
def CfnTags.applyPairs (multi : Bool) : List (LC × LC) → TagDict → Conv TagErr TagDict
  | [], result => .ok result
  | (k, v) :: rest, result =>
    match CfnTags._add_value multi result k v with
    | .ok r2 => CfnTags.applyPairs multi rest r2
    | .err e => .err e

/-- The values a pair sequence assigns to a key, in order. -/
def valuesOf {α : Type} (ps : List (LC × α)) (k : LC) : List α :=
  (ps.filter fun p => p.1 == k).map (·.2)

/-- The last value a pair sequence assigns to a key, if any. -/
def lastValue {α : Type} (ps : List (LC × α)) (k : LC) : Option α :=
  (valuesOf ps k).getLast?

/-- The merged mapping of a string's whitespace-run chunks, each read as a
single `Key=Value` pair (chunks that fail the single-pair form contribute
nothing; the claim about it assumes there are none). -/
def CfnTags.mergedChunks (s : LC) : List (LC × LC) :=
  (pySplitWs s).foldl
    (fun acc c =>
      match CfnTags.standardKeyValue c with
      | some kv => pyDictSet acc kv.1 kv.2
      | none => acc)
    []

/-- The binding resulting from a run of assignments: the last assigned
value when there is one, the prior binding otherwise. -/
def lastOr {α : Type} (vs : List α) (o : Option α) : Option α :=
  match vs.getLast? with
  | some v => some v
  | none => o

/-- Specification-side description of multi-value accumulation: merging a
batch of newly assigned values into a key's current binding. -/
def mergeSpec : Option TagVal → List LC → Option TagVal
  | o, [] => o
  | some (TagVal.multi xs), vs => some (.multi (xs ++ vs))
  | _, vs => some (.multi vs)

/-! ## Helper lemmas -/

theorem pyDictSet_key_eq {α : Type} (p : LC × α) (k : LC) (v : α) :
    ((if p.1 == k then (p.1, v) else p) : LC × α).1 = p.1 := by
  split <;> rfl

theorem pyDictGet_pyDictSet {α : Type} (d : List (LC × α)) (k k2 : LC) (v : α) :
    pyDictGet (pyDictSet d k v) k2 = if k2 = k then some v else pyDictGet d k2 := by
  unfold pyDictGet pyDictSet
  by_cases hany : (d.any fun p => p.1 == k) = true
  · rw [if_pos hany, List.find?_map]
    have hcomp :
        ((fun p : LC × α => p.1 == k2) ∘ fun p : LC × α => if p.1 == k then (p.1, v) else p) =
          fun p : LC × α => p.1 == k2 := by
      funext p
      simp only [Function.comp_apply, pyDictSet_key_eq]
    rw [hcomp]
    by_cases hk : k2 = k
    · subst hk
      obtain ⟨x, hx, hpx⟩ := List.any_eq_true.mp hany
      have hsome : (d.find? fun p : LC × α => p.1 == k2).isSome = true :=
        List.find?_isSome.mpr ⟨x, hx, hpx⟩
      obtain ⟨e, he⟩ := Option.isSome_iff_exists.mp hsome
      have hpe := List.find?_some he
      simp only [] at hpe
      rw [he, if_pos rfl]
      simp only [Option.map_some']
      rw [if_pos hpe]
    · rw [if_neg hk]
      cases hfind : d.find? fun p : LC × α => p.1 == k2 with
      | none => rfl
      | some e =>
        have hpe := List.find?_some hfind
        simp only [] at hpe
        have hke : (e.1 == k) = false := by
          rw [beq_eq_false_iff_ne]
          intro hh
          exact hk (by rw [← eq_of_beq hpe, hh])
        simp only [Option.map_some']
        rw [if_neg (by simp [hke])]
  · rw [if_neg hany]
    have hnone : (d.find? fun p : LC × α => p.1 == k) = none := by
      rw [List.find?_eq_none]
      intro x hx hpx
      exact hany (List.any_eq_true.mpr ⟨x, hx, hpx⟩)
    rw [List.find?_append]
    by_cases hk : k2 = k
    · subst hk
      rw [hnone]
      simp
    · have hkk : (k == k2) = false := by
        rw [beq_eq_false_iff_ne]
        exact fun hh => hk hh.symm
      rw [if_neg hk]
      cases hfind : d.find? fun p : LC × α => p.1 == k2 with
      | none => simp [hfind, List.find?, hkk]
      | some e => simp [hfind]

/-- `pyReplace` with one-character pattern and replacement is a character
map. -/
theorem pyReplaceAux_single (p r : Char) :
    ∀ (t : LC) (f : Nat), t.length ≤ f →
      pyReplaceAux f t [p] [r] = t.map fun c => if c == p then r else c := by
  intro t
  induction t with
  | nil =>
    intro f _
    cases f with
    | zero => rfl
    | succ f => simp [pyReplaceAux, List.isPrefixOf]
  | cons c t ih =>
    intro f hf
    cases f with
    | zero => simp at hf
    | succ f =>
      have hf' : t.length ≤ f := by
        simp only [List.length_cons] at hf
        omega
      by_cases hc : p = c
      · subst hc
        simp [pyReplaceAux, List.isPrefixOf, ih f hf']
      · have hcp : ¬ c = p := fun hh => hc hh.symm
        simp [pyReplaceAux, List.isPrefixOf, hc, hcp, ih f hf']

theorem pyReplace_single (p r : Char) (t : LC) :
    pyReplace t [p] [r] = t.map fun c => if c == p then r else c :=
  pyReplaceAux_single p r t t.length le_rfl

theorem set_append_len (l1 : LC) (x : Char) (l2 : LC) (y : Char) :
    (l1 ++ x :: l2).set l1.length y = l1 ++ y :: l2 := by
  induction l1 with
  | nil => simp
  | cons a l1 ih => simp [List.set_cons_succ, ih]

theorem restore_enumFrom (t : LC) : ∀ (n : Nat) (pre : LC), pre.length = n →
    ((((List.enumFrom n t).filter fun p => p.2 == ' ').map (·.1)).foldl
      (fun l p => l.set p ' ') (pre ++ t.map fun c => if c == ' ' then '_' else c))
      = pre ++ t := by
  induction t with
  | nil =>
    intro n pre _
    simp
  | cons c t ih =>
    intro n pre hpre
    rw [List.enumFrom_cons, List.filter_cons]
    by_cases hc : c = ' '
    · subst hc
      simp only [List.map_cons, beq_self_eq_true, if_true, List.foldl_cons]
      rw [← hpre, set_append_len]
      rw [List.append_cons pre ' ' (t.map fun c => if c == ' ' then '_' else c)]
      rw [ih (pre.length + 1) (pre ++ [ ' ' ]) (by simp)]
      simp
    · have hcb : (c == ' ') = false := by simpa using hc
      simp only [List.map_cons, hcb, if_false, Bool.false_eq_true]
      rw [List.append_cons pre c (t.map fun c => if c == ' ' then '_' else c)]
      rw [ih (n + 1) (pre ++ [c]) (by simp [hpre])]
      simp

/-- C6: with the default one-character placeholder, `restore_spaces` after
`replace_spaces` recovers the original text exactly: every space offset is
recorded, the placeholder is substituted at those offsets, and the spaces
are written back at exactly the recorded offsets. -/
theorem C6_placeholder_roundtrip (s : LC) :
    ((TextWithSpaces.init s).replace_spaces [ '_' ]).restore_spaces = s := by
  unfold TextWithSpaces.init TextWithSpaces.replace_spaces TextWithSpaces.restore_spaces
  simp only []
  rw [pyReplace_single]
  have h := restore_enumFrom s 0 [] rfl
  simpa using h

/-- C5 (counterexample): the claim says a one-character input consisting of
a single quote character is returned unchanged; the source strips whenever
the string is non-empty with equal quote ends, so the single double-quote
character becomes the empty string. -/
theorem C5_counterexample :
    _unquote_wrapped_quotes [ '"' ] = [] ∧ ([ '"' ] : LC) ≠ [] := by
  constructor
  · rfl
  · decide

/-- C5 (amended): the outer quote pair is stripped whenever the input is
non-empty (not: of length at least two) with equal first and last characters
that are quote characters — so the one-character quote input becomes empty —
at most one layer is removed, and afterwards the three escape replacements
run left to right (backslash-space, then backslash-double-quote, then
backslash-single-quote). -/
theorem C5_unquote_amended :
    (∀ s : LC, s ≠ [] → s.head? = s.getLast? →
      (s.head? = some '"' ∨ s.head? = some '\'') →
      _unquote_wrapped_quotes s = pyUnescape ((s.drop 1).dropLast)) ∧
    (∀ s : LC,
      ¬ (s ≠ [] ∧ s.head? = s.getLast? ∧ (s.head? = some '"' ∨ s.head? = some '\'')) →
      _unquote_wrapped_quotes s = pyUnescape s) ∧
    _unquote_wrapped_quotes (lc "\"\"ab\"\"") = lc "\"ab\"" ∧
    _unquote_wrapped_quotes [ '"' ] = [] := by
  refine ⟨?_, ?_, by decide, rfl⟩
  · intro s h1 h2 h3
    unfold _unquote_wrapped_quotes
    rw [if_pos ⟨h1, h2, h3, by rw [← h2]; exact h3⟩]
  · intro s h
    unfold _unquote_wrapped_quotes
    rw [if_neg fun hc => h ⟨hc.1, hc.2.1, hc.2.2.1⟩]

/-- C5 (witness): the amended theorem applied to the concrete wrapped input
`"ab"` (with the quotes part of the string). -/
theorem C5_witness : _unquote_wrapped_quotes (lc "\"ab\"") = lc "ab" := by
  rw [C5_unquote_amended.1 (lc "\"ab\"") (by decide) (by decide) (by decide)]
  decide

theorem pySplit_ne_nil (s : LC) (d : Char) : pySplit s d ≠ [] := by
  cases s with
  | nil => simp [pySplit]
  | cons c t =>
    rw [pySplit]
    by_cases hc : c = d
    · simp [hc]
    · rw [if_neg (by simpa using hc)]
      cases pySplit t d <;> simp

theorem pySplit_no_delim (d : Char) :
    ∀ a : LC, d ∉ a → pySplit a d = [a] := by
  intro a
  induction a with
  | nil => intro _; rfl
  | cons c t ih =>
    intro h
    have hc : ¬ c = d := fun hh => h (hh ▸ List.mem_cons_self c t)
    have ht : d ∉ t := fun hh => h (List.mem_cons_of_mem c hh)
    rw [pySplit, if_neg (by simpa using hc), ih ht]

theorem pySplit_append_delim (d : Char) :
    ∀ (a b : LC), d ∉ a → pySplit (a ++ d :: b) d = a :: pySplit b d := by
  intro a
  induction a with
  | nil =>
    intro b _
    simp [pySplit]
  | cons c t ih =>
    intro b h
    have hc : ¬ c = d := fun hh => h (hh ▸ List.mem_cons_self c t)
    have ht : d ∉ t := fun hh => h (List.mem_cons_of_mem c hh)
    rw [List.cons_append, pySplit, if_neg (by simpa using hc), ih b ht]

/-- C3 (counterexample): the claim says an empty resulting profile name is a
format error distinct from the colon-count error; in the source both reach
the same `self.fail` with the identical message, so the surfaced errors are
equal. -/
theorem C3_counterexample :
    SigningProfilesOptionType.convert (.str (lc "MyFn=MyProfile:Owner:Extra"))
      = SigningProfilesOptionType.convert (.str (lc "MyFn=:Owner")) ∧
    SigningProfilesOptionType.convert (.str (lc "MyFn=:Owner"))
      = .err .signerProfileInvalidFormat := by
  exact ⟨by decide, by decide⟩

/-- C3 (amended): splitting a profile spec on the colon yields the whole
spec with an empty owner at zero colons and the two halves at one colon
(so `MyFn=MyProfile:MyOwner` decodes as claimed), more than one colon is a
format error, and an empty resulting profile name is a format error surfaced
identically to the colon-count error (the same invalid-format failure, only
the absence of any matched pair giving a different error). -/
theorem C3_signing_profile_amended :
    (∀ sp : LC, pyCount sp ':' = 0 →
      SigningProfilesOptionType._split_signer_profile_name_owner sp = some (sp, [])) ∧
    (∀ a b : LC, ':' ∉ a → ':' ∉ b →
      SigningProfilesOptionType._split_signer_profile_name_owner (a ++ ':' :: b)
        = some (a, b)) ∧
    (∀ sp : LC, 1 < pyCount sp ':' →
      SigningProfilesOptionType._split_signer_profile_name_owner sp = none) ∧
    SigningProfilesOptionType.convert (.str (lc "MyFn=MyProfile:MyOwner"))
      = .ok [(lc "MyFn", ⟨lc "MyProfile", lc "MyOwner"⟩)] ∧
    SigningProfilesOptionType.convert (.str (lc "MyFn=MyProfile:Owner:Extra"))
      = .err .signerProfileInvalidFormat ∧
    SigningProfilesOptionType.convert (.str (lc "MyFn=:Owner"))
      = .err .signerProfileInvalidFormat := by
  refine ⟨?_, ?_, ?_, by decide, by decide, by decide⟩
  · intro sp h
    simp [SigningProfilesOptionType._split_signer_profile_name_owner, h]
  · intro a b ha hb
    have hcount : pyCount (a ++ ':' :: b) ':' = 1 := by
      simp [pyCount, List.count_append, List.count_cons,
        List.count_eq_zero.mpr ha, List.count_eq_zero.mpr hb]
    unfold SigningProfilesOptionType._split_signer_profile_name_owner
    rw [hcount]
    rw [if_neg (by omega), if_pos rfl]
    rw [pySplit_append_delim ':' a b ha, pySplit_no_delim ':' b hb]
  · intro sp h
    unfold SigningProfilesOptionType._split_signer_profile_name_owner
    rw [if_pos h]

/-- C3 (witness): the amended theorem's one-colon case at the concrete
profile spec `MyProfile:MyOwner`. -/
theorem C3_witness :
    SigningProfilesOptionType._split_signer_profile_name_owner
        (lc "MyProfile" ++ ':' :: lc "MyOwner")
      = some (lc "MyProfile", lc "MyOwner") :=
  C3_signing_profile_amended.2.1 (lc "MyProfile") (lc "MyOwner")
    (by decide) (by decide)

/-- C1: on the argument `Key1="value with space" Key2=val2` the exact-one-
equals stage and the plain space-separated stage both fail, the quoted span
is found and masked into `Key1="value_with_space" Key2=val2`, the masked
copy parses under the whitespace-run splitter, and the full tag decode
returns exactly the claimed mapping with the spaces restored and the quotes
stripped. -/
theorem C1_tag_quoted_space_decode :
    CfnTags.standardKeyValue (lc "Key1=\"value with space\" Key2=val2") = none ∧
    CfnTags.spaceSeparatedKeyValue (lc "Key1=\"value with space\" Key2=val2") = none ∧
    (findall tagQuotedPattern
        (_unquote_wrapped_quotes (lc "Key1=\"value with space\" Key2=val2")))
      = [ [ lc "\"value with space\"" ] ] ∧
    (CfnTags.maskQuoted
        (_unquote_wrapped_quotes (lc "Key1=\"value with space\" Key2=val2"))).1
      = lc "Key1=\"value_with_space\" Key2=val2" ∧
    CfnTags.multipleSpaceSeparatedKeyValue (lc "Key1=\"value_with_space\" Key2=val2")
      = some [(lc "Key1", lc "\"value_with_space\""), (lc "Key2", lc "val2")] ∧
    CfnTags.convert false (.str (lc "Key1=\"value with space\" Key2=val2"))
      = .ok [(lc "Key1", .single (lc "value with space")),
             (lc "Key2", .single (lc "val2"))] := by
  exact ⟨by decide, by decide, by decide, by decide, by decide, by decide⟩

/-- C4 (code bug): `SyncWatchExcludeType.convert` does pass an
already-decoded mapping through unchanged, but
`SigningProfilesOptionType.convert` — whose own docstring promises exactly
that pass-through — has no dict check: it iterates the dict's keys, finds no
`key=value` match and fails; and `CfnTags.convert` on a dict reaches
`dict.count`, which does not exist, raising an `AttributeError`. -/
theorem C4_mapping_passthrough_bug :
    (∀ d : List (LC × List LC), SyncWatchExcludeType.convert (.dict d) = .ok d) ∧
    SigningProfilesOptionType.convert
        (.dict [(lc "MyFn", ⟨lc "MySigningProfile", []⟩)])
      = .err .notValidCodeSignConfig ∧
    CfnTags.convert false (.dict [(lc "A", .single (lc "B"))])
      = .err .attributeError := by
  exact ⟨fun d => rfl, by decide, by decide⟩

/-- C9 (counterexample): the claim says the parameter-override decoder also
decodes the single empty string to the empty mapping without error; the
source only short-circuits on the empty one-string tuple, and the empty
string itself matches neither pattern, so it fails. -/
theorem C9_counterexample :
    CfnParameterOverridesType.convert (.str []) = .err .notValidFormat ∧
    (Conv.err ParamErr.notValidFormat : Conv ParamErr (List (LC × LC)))
      ≠ .ok [] := by
  exact ⟨by decide, by decide⟩

/-- C9 (amended): the empty one-element sequence decodes to the empty
mapping for all three decoders; the single empty string decodes to the
empty mapping for the tag decoder but raises the format error for the
parameter-override and signing-profile decoders. -/
theorem C9_empty_input_amended :
    CfnTags.convert false (.tuple [ .str [] ]) = .ok [] ∧
    CfnTags.convert false (.str []) = .ok [] ∧
    CfnParameterOverridesType.convert (.tuple [ [] ]) = .ok [] ∧
    CfnParameterOverridesType.convert (.str []) = .err .notValidFormat ∧
    SigningProfilesOptionType.convert (.tuple [ [] ]) = .ok [] ∧
    SigningProfilesOptionType.convert (.str []) = .err .notValidCodeSignConfig := by
  exact ⟨by decide, by decide, by decide, by decide, by decide, by decide⟩

theorem twoSpace_split_mem :
    ∀ (a b : LC), [] ∈ (pySplit (a ++ ' ' :: ' ' :: b) ' ').tail := by
  intro a
  induction a with
  | nil =>
    intro b
    simp [pySplit]
  | cons c a ih =>
    intro b
    rw [List.cons_append, pySplit]
    by_cases hc : c = ' '
    · rw [if_pos (by simpa using hc)]
      cases hr : pySplit (a ++ ' ' :: ' ' :: b) ' ' with
      | nil => exact absurd hr (pySplit_ne_nil _ _)
      | cons h t =>
        have hm := ih b
        rw [hr] at hm
        simp only [List.tail_cons] at hm ⊢
        exact List.mem_cons_of_mem h hm
    · rw [if_neg (by simpa using hc)]
      cases hr : pySplit (a ++ ' ' :: ' ' :: b) ' ' with
      | nil => exact absurd hr (pySplit_ne_nil _ _)
      | cons h t =>
        have hm := ih b
        rw [hr] at hm
        simpa using hm

theorem tagChunksGo_none :
    ∀ (chunks : List LC) (acc : List (LC × LC)), [] ∈ chunks →
      CfnTags.tagChunksGo chunks acc = none := by
  intro chunks
  induction chunks with
  | nil =>
    intro acc h
    simp at h
  | cons c rest ih =>
    intro acc h
    rcases List.mem_cons.mp h with h1 | h2
    · rw [← h1]
      simp [CfnTags.tagChunksGo, CfnTags.standardKeyValue, pyCount]
    · cases hs : CfnTags.standardKeyValue c with
      | none => simp [CfnTags.tagChunksGo, hs]
      | some kv =>
        simp only [CfnTags.tagChunksGo, hs]
        exact ih _ h2

theorem tagChunksGo_some :
    ∀ (chunks : List LC) (acc : List (LC × LC)),
      (∀ c ∈ chunks, pyCount c '=' = 1) →
      CfnTags.tagChunksGo chunks acc
        = some (chunks.foldl
            (fun acc c =>
              match CfnTags.standardKeyValue c with
              | some kv => pyDictSet acc kv.1 kv.2
              | none => acc)
            acc) := by
  intro chunks
  induction chunks with
  | nil =>
    intro acc _
    rfl
  | cons c rest ih =>
    intro acc h
    have hc := h c (List.mem_cons_self c rest)
    have hs : CfnTags.standardKeyValue c
        = some ((pySplit c '=').headD [], ((pySplit c '=').drop 1).headD []) := by
      unfold CfnTags.standardKeyValue
      rw [if_neg (by simp [hc])]
    rw [List.foldl_cons]
    simp only [CfnTags.tagChunksGo, hs]
    exact ih _ fun c2 hcc => h c2 (List.mem_cons_of_mem _ hcc)

/-- C10: an argument holding two consecutive spaces always defeats the
stage-2 single-space splitter (the empty chunk between them has no equals
sign), even when every non-empty chunk is a valid single-equals pair; the
whitespace-run splitter used inside stage 3 succeeds on the same argument
whenever each of its chunks is a single-equals pair, returning the merged
mapping of those pairs. -/
theorem C10_double_space (s : LC) (h : ∃ a b : LC, s = a ++ ' ' :: ' ' :: b) :
    CfnTags.spaceSeparatedKeyValue s = none ∧
    ((∀ c ∈ pySplitWs s, pyCount c '=' = 1) →
      CfnTags.multipleSpaceSeparatedKeyValue s = some (CfnTags.mergedChunks s)) := by
  constructor
  · obtain ⟨a, b, rfl⟩ := h
    have hmem : [] ∈ pySplit (a ++ ' ' :: ' ' :: b) ' ' := by
      have hm := twoSpace_split_mem a b
      cases hr : pySplit (a ++ ' ' :: ' ' :: b) ' ' with
      | nil => exact absurd hr (pySplit_ne_nil _ _)
      | cons hh tt =>
        rw [hr] at hm
        simp only [List.tail_cons] at hm
        exact List.mem_cons_of_mem hh hm
    exact tagChunksGo_none _ [] hmem
  · intro hall
    unfold CfnTags.multipleSpaceSeparatedKeyValue CfnTags.mergedChunks
    exact tagChunksGo_some (pySplitWs s) [] hall

/-- C10 (witness): the theorem at the concrete argument `a=1  b=2` (two
consecutive spaces, both chunks valid pairs). -/
theorem C10_witness :
    CfnTags.spaceSeparatedKeyValue (lc "a=1  b=2") = none ∧
    CfnTags.multipleSpaceSeparatedKeyValue (lc "a=1  b=2")
      = some (CfnTags.mergedChunks (lc "a=1  b=2")) := by
  have h := C10_double_space (lc "a=1  b=2") ⟨lc "a=1", lc "b=2", by decide⟩
  exact ⟨h.1, h.2 (by decide)⟩

theorem mem_pyDictSet {α : Type} (d : List (LC × α)) (k : LC) (v : α) :
    ∀ p ∈ pyDictSet d k v, p.2 = v ∨ p ∈ d := by
  intro p hp
  unfold pyDictSet at hp
  by_cases hany : (d.any fun q => q.1 == k) = true
  · rw [if_pos hany] at hp
    obtain ⟨q, hq, hqe⟩ := List.mem_map.mp hp
    by_cases hqk : (q.1 == k) = true
    · left
      rw [← hqe, if_pos hqk]
    · right
      rw [← hqe, if_neg hqk]
      exact hq
  · rw [if_neg hany] at hp
    rcases List.mem_append.mp hp with h1 | h2
    · right
      exact h1
    · left
      simp only [List.mem_singleton] at h2
      rw [h2]

theorem pyDictGet_mem {α : Type} (d : List (LC × α)) (k : LC) (v : α)
    (h : pyDictGet d k = some v) : ∃ e ∈ d, e.2 = v := by
  unfold pyDictGet at h
  cases hf : d.find? fun p => p.1 == k with
  | none =>
    rw [hf] at h
    simp at h
  | some e =>
    rw [hf] at h
    simp only [Option.map_some', Option.some.injEq] at h
    exact ⟨e, List.mem_of_find?_eq_some hf, h⟩

theorem applyPairs_single :
    ∀ (ps : List (LC × LC)) (d : TagDict),
      CfnTags.applyPairs false ps d
        = .ok (ps.foldl (fun a p => pyDictSet a p.1 (TagVal.single p.2)) d) := by
  intro ps
  induction ps with
  | nil =>
    intro d
    rfl
  | cons p rest ih =>
    intro d
    obtain ⟨k, v⟩ := p
    simp only [CfnTags.applyPairs, CfnTags._add_value, Bool.false_eq_true,
      if_false, List.foldl_cons]
    exact ih _

theorem get_foldl_set {α β : Type} (f : β → α) :
    ∀ (ps : List (LC × β)) (d : List (LC × α)) (k : LC),
      pyDictGet (ps.foldl (fun a p => pyDictSet a p.1 (f p.2)) d) k
        = match (valuesOf ps k).getLast? with
          | some v => some (f v)
          | none => pyDictGet d k := by
  intro ps
  induction ps with
  | nil =>
    intro d k
    rfl
  | cons p rest ih =>
    intro d k
    obtain ⟨k1, v1⟩ := p
    rw [List.foldl_cons, ih (pyDictSet d k1 (f v1)) k]
    by_cases hk : k1 = k
    · subst hk
      have hval : valuesOf ((k1, v1) :: rest) k1 = v1 :: valuesOf rest k1 := by
        simp [valuesOf]
      rw [hval, List.getLast?_cons]
      cases hv : (valuesOf rest k1).getLast? with
      | none => simp [pyDictGet_pyDictSet]
      | some v => simp
    · have hval : valuesOf ((k1, v1) :: rest) k = valuesOf rest k := by
        have : (k1 == k) = false := by simpa using hk
        simp [valuesOf, this]
      rw [hval]
      cases (valuesOf rest k).getLast? with
      | some v => rfl
      | none =>
        simp only []
        rw [pyDictGet_pyDictSet, if_neg fun hh => hk hh.symm]

theorem mergeSpec_nil (o : Option TagVal) : mergeSpec o [] = o := by
  match o with
  | none => rfl
  | some (TagVal.single s) => rfl
  | some (TagVal.multi xs) => rfl

theorem applyPairs_multi :
    ∀ (ps : List (LC × LC)) (d : TagDict),
      (∀ p ∈ d, ∃ x xs, p.2 = TagVal.multi (x :: xs)) →
      ∃ d2, CfnTags.applyPairs true ps d = .ok d2 ∧
        (∀ p ∈ d2, ∃ x xs, p.2 = TagVal.multi (x :: xs)) ∧
        ∀ k, pyDictGet d2 k = mergeSpec (pyDictGet d k) (valuesOf ps k) := by
  intro ps
  induction ps with
  | nil =>
    intro d hinv
    refine ⟨d, rfl, hinv, fun k => ?_⟩
    have hval : valuesOf ([] : List (LC × LC)) k = [] := rfl
    rw [hval, mergeSpec_nil]
  | cons p rest ih =>
    intro d hinv
    obtain ⟨k1, v1⟩ := p
    cases hget : pyDictGet d k1 with
    | none =>
      have hstep : CfnTags._add_value true d k1 v1
          = .ok (pyDictSet d k1 (.multi [ v1 ])) := by
        simp [CfnTags._add_value, hget]
      have hinv' : ∀ p ∈ pyDictSet d k1 (TagVal.multi [ v1 ]),
          ∃ x xs, p.2 = TagVal.multi (x :: xs) := by
        intro p hp
        rcases mem_pyDictSet d k1 (TagVal.multi [ v1 ]) p hp with h1 | h2
        · exact ⟨v1, [], h1⟩
        · exact hinv p h2
      obtain ⟨d2, hd2, hinv2, hk2⟩ := ih _ hinv'
      refine ⟨d2, ?_, hinv2, fun k => ?_⟩
      · simp only [CfnTags.applyPairs, hstep]
        exact hd2
      · rw [hk2 k, pyDictGet_pyDictSet]
        by_cases hk : k = k1
        · subst hk
          rw [if_pos rfl, hget]
          have hval : valuesOf ((k, v1) :: rest) k = v1 :: valuesOf rest k := by
            simp [valuesOf]
          rw [hval]
          cases valuesOf rest k with
          | nil =>
            rw [mergeSpec_nil]
            rfl
          | cons y ys => rfl
        · rw [if_neg hk]
          have hval : valuesOf ((k1, v1) :: rest) k = valuesOf rest k := by
            have : (k1 == k) = false := by
              simpa using fun hh => hk hh.symm
            simp [valuesOf, this]
          rw [hval]
    | some tv =>
      have hmulti : ∃ x xs, tv = TagVal.multi (x :: xs) := by
        obtain ⟨e, he, hev⟩ := pyDictGet_mem d k1 tv hget
        obtain ⟨x, xs, hx⟩ := hinv e he
        exact ⟨x, xs, by rw [← hev, hx]⟩
      obtain ⟨x, xs, rfl⟩ := hmulti
      have hstep : CfnTags._add_value true d k1 v1
          = .ok (pyDictSet d k1 (.multi ((x :: xs) ++ [ v1 ]))) := by
        simp [CfnTags._add_value, hget]
      have hinv' : ∀ p ∈ pyDictSet d k1 (TagVal.multi ((x :: xs) ++ [ v1 ])),
          ∃ y ys, p.2 = TagVal.multi (y :: ys) := by
        intro p hp
        rcases mem_pyDictSet d k1 (TagVal.multi ((x :: xs) ++ [ v1 ])) p hp with h1 | h2
        · exact ⟨x, xs ++ [ v1 ], by rw [h1]; simp⟩
        · exact hinv p h2
      obtain ⟨d2, hd2, hinv2, hk2⟩ := ih _ hinv'
      refine ⟨d2, ?_, hinv2, fun k => ?_⟩
      · simp only [CfnTags.applyPairs, hstep]
        exact hd2
      · rw [hk2 k, pyDictGet_pyDictSet]
        by_cases hk : k = k1
        · subst hk
          rw [if_pos rfl, hget]
          have hval : valuesOf ((k, v1) :: rest) k = v1 :: valuesOf rest k := by
            simp [valuesOf]
          rw [hval]
          cases valuesOf rest k with
          | nil =>
            rw [mergeSpec_nil]
            rfl
          | cons y ys =>
            simp [mergeSpec, List.append_assoc]
        · rw [if_neg hk]
          have hval : valuesOf ((k1, v1) :: rest) k = valuesOf rest k := by
            have : (k1 == k) = false := by
              simpa using fun hh => hk hh.symm
            simp [valuesOf, this]
          rw [hval]

/-- C7: over any sequence of successfully parsed pairs in one tag-decoder
call, a key's final stored value is its last assigned value in single-value
mode, and the insertion-ordered list of all values assigned to it in
multi-value mode; concretely, decoding `Key1=V1` and `Key1=V2` in
multi-value mode yields the mapping from `Key1` to the list `V1, V2`. -/
theorem C7_add_value_modes (ps : List (LC × LC)) (k : LC) :
    (∃ d, CfnTags.applyPairs false ps [] = .ok d ∧
      pyDictGet d k = (lastValue ps k).map TagVal.single) ∧
    (∃ d, CfnTags.applyPairs true ps [] = .ok d ∧
      pyDictGet d k = if valuesOf ps k = [] then none
        else some (.multi (valuesOf ps k))) ∧
    CfnTags.convert true (.list [ .str (lc "Key1=V1"), .str (lc "Key1=V2") ])
      = .ok [(lc "Key1", .multi [ lc "V1", lc "V2" ])] := by
  refine ⟨?_, ?_, by decide⟩
  · refine ⟨_, applyPairs_single ps [], ?_⟩
    rw [get_foldl_set TagVal.single ps [] k]
    unfold lastValue
    cases (valuesOf ps k).getLast? with
    | some v => rfl
    | none => rfl
  · obtain ⟨d2, hd2, _, hk2⟩ := applyPairs_multi ps [] (by intro p hp; simp at hp)
    refine ⟨d2, hd2, ?_⟩
    rw [hk2 k]
    have hnil : pyDictGet ([] : TagDict) k = none := rfl
    rw [hnil]
    cases valuesOf ps k with
    | nil => rfl
    | cons x xs => rfl

theorem get_foldl_set_pairs {α : Type} (g : LC × LC → LC × α)
    (ps : List (LC × LC)) (d : List (LC × α)) (k : LC) :
    pyDictGet (ps.foldl (fun a p => pyDictSet a (g p).1 (g p).2) d) k
      = lastOr (valuesOf (ps.map g) k) (pyDictGet d k) := by
  have h := get_foldl_set (fun x : α => x) (ps.map g) d k
  rw [List.foldl_map] at h
  unfold lastOr
  cases hv : (valuesOf (ps.map g) k).getLast? with
  | some v =>
    rw [hv] at h
    simpa using h
  | none =>
    rw [hv] at h
    simpa using h

/-- C2 (counterexample): the claim says a strict JSON-object decode is
attempted first and every failure is the structured format error; on the
input `5`, `json.loads` succeeds with a non-dict and `result.values()`
raises an uncaught `AttributeError`, while the decoder the specification
describes would fall back to the pair grammar and fail with the format
error. -/
theorem C2_counterexample :
    CfnMetadataType.convert (lc "5") = .err .attributeError ∧
    CfnMetadataType.specDecode (lc "5") = .err .notValidFormat ∧
    (Conv.err MetaErr.attributeError : Conv MetaErr (List (LC × JsonVal)))
      ≠ .err .notValidFormat := by
  refine ⟨rfl, rfl, fun h => ?_⟩
  exact absurd (Conv.err.inj h) (by decide)

/-- C2 (amended): the metadata decoder returns the empty mapping at once on
an empty value; otherwise it runs a generic JSON decode: a decoded JSON
object fails with the structured format error exactly when one of its
values is a list or an object and is returned otherwise, a decoded
non-object raises an uncaught `AttributeError`, and on a JSON decode
failure the comma-delimited pair grammar is applied to the raw string,
failing with the structured format error exactly when it yields no
pairs. -/
theorem C2_metadata_amended (s : LC) :
    (s = [] → CfnMetadataType.convert s = .ok []) ∧
    (∀ kvs, jsonLoads s = some (.obj kvs) → s ≠ [] →
      CfnMetadataType.convert s
        = if kvs.any (fun p => p.2.isContainer) then .err .notValidFormat
          else .ok kvs) ∧
    (∀ v, jsonLoads s = some v → s ≠ [] → (∀ kvs, v ≠ .obj kvs) →
      CfnMetadataType.convert s = .err .attributeError) ∧
    (jsonLoads s = none → s ≠ [] →
      CfnMetadataType.convert s
        = if pairsOfCaps (findall metadataPattern s) = [] then .err .notValidFormat
          else .ok ((pairsOfCaps (findall metadataPattern s)).foldl
            (fun acc p => pyDictSet acc p.1 (JsonVal.str p.2)) [])) ∧
    CfnMetadataType.convert (lc "\x7b\"a\":\"b\"\x7d") = .ok [(lc "a", .str (lc "b"))] ∧
    CfnMetadataType.convert (lc "\x7b\"a\":[\"b\"]\x7d") = .err .notValidFormat := by
  refine ⟨?_, ?_, ?_, ?_, rfl, rfl⟩
  · intro h
    subst h
    rfl
  · intro kvs hjson hne
    unfold CfnMetadataType.convert
    rw [if_neg hne, hjson]
  · intro v hjson hne hnobj
    unfold CfnMetadataType.convert
    rw [if_neg hne, hjson]
    cases v with
    | obj kvs => exact absurd rfl (hnobj kvs)
    | null => rfl
    | bool b => rfl
    | num l => rfl
    | str s2 => rfl
    | arr xs => rfl
  · intro hjson hne
    unfold CfnMetadataType.convert
    rw [if_neg hne, hjson]

/-- C2 (witness): the amended theorem's non-object branch at the concrete
input `5`. -/
theorem C2_witness : CfnMetadataType.convert (lc "5") = .err .attributeError :=
  (C2_metadata_amended (lc "5")).2.2.1 (.num (lc "5")) rfl (by decide)
    fun kvs h => JsonVal.noConfusion h

/-- C8: each parameter-override token is stripped and prefixed with one
space, the verbose `ParameterKey=..,ParameterValue=..` grammar is tried
first, the compact grammar only when the verbose one has no match on the
token, all pairs of the winning grammar are extracted, a token matching
neither grammar is the format error citing both canonical examples, and
across tokens later duplicate keys overwrite earlier ones. -/
theorem C8_param_overrides (val : LC) (d : List (LC × LC)) :
    (findall paramPattern1 (' ' :: pyStrip val) ≠ [] →
      CfnParameterOverridesType.convertVal d val
        = .ok (CfnParameterOverridesType.addGroups d
            (pairsOfCaps (findall paramPattern1 (' ' :: pyStrip val))))) ∧
    (findall paramPattern1 (' ' :: pyStrip val) = [] →
      findall paramPattern2 (' ' :: pyStrip val) ≠ [] →
      CfnParameterOverridesType.convertVal d val
        = .ok (CfnParameterOverridesType.addGroups d
            (pairsOfCaps (findall paramPattern2 (' ' :: pyStrip val))))) ∧
    (findall paramPattern1 (' ' :: pyStrip val) = [] →
      findall paramPattern2 (' ' :: pyStrip val) = [] →
      CfnParameterOverridesType.convertVal d val = .err .notValidFormat) ∧
    (∀ (ps : List (LC × LC)) (k : LC),
      pyDictGet (CfnParameterOverridesType.addGroups d ps) k
        = lastOr (valuesOf (ps.map fun p =>
            (_unquote_wrapped_quotes p.1, _unquote_wrapped_quotes p.2)) k)
            (pyDictGet d k)) ∧
    CfnParameterOverridesType.convert (.str (lc "ParameterKey=K,ParameterValue=V"))
      = .ok [(lc "K", lc "V")] ∧
    CfnParameterOverridesType.convert (.tuple [ lc "A=1", lc "A=2" ])
      = .ok [(lc "A", lc "2")] := by
  refine ⟨?_, ?_, ?_, ?_, by decide, by decide⟩
  · intro h1
    unfold CfnParameterOverridesType.convertVal
    rw [if_pos h1]
  · intro h1 h2
    unfold CfnParameterOverridesType.convertVal
    rw [if_neg (not_not_intro h1), if_pos h2]
  · intro h1 h2
    unfold CfnParameterOverridesType.convertVal
    rw [if_neg (not_not_intro h1), if_neg (not_not_intro h2)]
  · intro ps k
    unfold CfnParameterOverridesType.addGroups
    have h := get_foldl_set_pairs
      (fun p => (_unquote_wrapped_quotes p.1, _unquote_wrapped_quotes p.2)) ps d k
    dsimp only [] at h
    exact h

/-- C8 (witness): the theorem's no-match branch at the concrete token `%`
(neither grammar matches), and its verbose branch at the canonical verbose
token. -/
theorem C8_witness :
    CfnParameterOverridesType.convertVal [] (lc "%") = .err .notValidFormat :=
  (C8_param_overrides (lc "%") []).2.2.1 (by decide) (by decide)

end SamCliTypes


